import Mathlib

/-!
Shallow embedding of the Nihility-io Result library (Result core, Error Codec,
JSON Bridge) for checking the natural-language specification against the code.
JavaScript values are modelled by an inductive `JSVal`; error objects carry a
prototype class tag plus an ordered own-property list, matching the dynamic
property model of the source.
-/

namespace ResultLib

/-- Prototype class of a JS error object (determines the inherited name). -/
inductive JSErrClass where
  | error
  | evalError
  | rangeError
  | referenceError
  | syntaxError
  | uriError
deriving DecidableEq, Repr

/-- JavaScript runtime values, as far as the library observes them:
primitives, arrays, plain objects (ordered own-property lists), and
Result instances (`resSuccess` / `resFailure`, the latter carrying the
wrapped error's class tag and own properties). -/
inductive JSVal where
  | undefined
  | jsnull
  | bool (b : Bool)
  | num (n : Int)
  | str (s : String)
  | arr (xs : List JSVal)
  | obj (props : List (String × JSVal))
  | resSuccess (v : JSVal)
  | resFailure (cls : JSErrClass) (props : List (String × JSVal))

/-- A JS error object: a prototype class tag plus the ordered list of own
properties (`new Error(m)` installs own `message` and `stack`; `name` is
inherited from the prototype unless defined as an own property). -/
structure JSError where
  cls : JSErrClass
  props : List (String × JSVal)

/-- The two-variant Result value: `Success` wraps a value, `Failure` wraps an
error object. -/
inductive JSResult where
  | success (v : JSVal)
  | failure (e : JSError)

/-- View a Result instance as a JS runtime value (Result instances occur
inside revived object graphs). -/
def JSResult.toVal : JSResult → JSVal
  | .success v => .resSuccess v
  | .failure e => .resFailure e.cls e.props

/-- The `instanceof Result` test together with the downcast: a runtime value
is a Result instance iff it was built by one of the two constructors. -/
def JSVal.toResult? : JSVal → Option JSResult
  | .resSuccess v => some (.success v)
  | .resFailure c p => some (.failure ⟨c, p⟩)
  | _ => none

/-- JavaScript truthiness, as used by `if (defaultVault)` in `Failure.unwrap`:
`undefined`, `null`, `false`, `0`, and `""` are falsy; every object is truthy. -/
def JSVal.truthy : JSVal → Bool
  | .undefined => false
  | .jsnull => false
  | .bool b => b
  | .num n => n != 0
  | .str s => s != ""
  | .arr _ => true
  | .obj _ => true
  | .resSuccess _ => true
  | .resFailure _ _ => true

/-! ### Object property model

JS own-property access, and `Object.defineProperty` semantics: redefining an
existing key updates its value in place (keeping enumeration order), a new key
is appended at the end. -/

/-- Own-property lookup (`obj[key]` restricted to own properties). -/
def getOwn : List (String × JSVal) → String → Option JSVal
  | [], _ => none
  | (k', v') :: rest, k => if k' = k then some v' else getOwn rest k

/-- `Object.defineProperty` / property assignment on an ordered property
list: update in place if the key exists, else append. -/
def setProp : List (String × JSVal) → String → JSVal → List (String × JSVal)
  | [], k, v => [(k, v)]
  | (k', v') :: rest, k, v =>
      if k' = k then (k', v) :: rest else (k', v') :: setProp rest k v

/-- Name of the prototype of each error class (`Error.prototype.name` etc.). -/
def JSErrClass.protoName : JSErrClass → String
  | .error => "Error"
  | .evalError => "EvalError"
  | .rangeError => "RangeError"
  | .referenceError => "ReferenceError"
  | .syntaxError => "SyntaxError"
  | .uriError => "URIError"

/-- `err.name`: the own `name` property if defined, otherwise the prototype's. -/
def JSError.getName (e : JSError) : JSVal :=
  (getOwn e.props "name").getD (.str e.cls.protoName)

/-- `err.message`: the own `message` property if defined, otherwise the
prototype default `""`. -/
def JSError.getMessage (e : JSError) : JSVal :=
  (getOwn e.props "message").getD (.str "")

/-- `Object.defineProperty` of key `k` with value `v` on an error object. -/
def JSError.defineProp (e : JSError) (k : String) (v : JSVal) : JSError :=
  ⟨e.cls, setProp e.props k v⟩

/-- `new C(message)`: constructing an error installs own `message` and an
own `stack` (whose runtime-dependent content is modelled by a placeholder;
no claim observes it before it is filtered out or overwritten). -/
def mkErr (cls : JSErrClass) (message : String) : JSError :=
  ⟨cls, [("message", .str message), ("stack", .str "<trace>")]⟩

/-! ### Result core (src/result.ts, newest copy) -/

namespace JSResult

/-- `Result.unwrap`: `Success.unwrap` ignores the argument and returns the
wrapped value; `Failure.unwrap` runs `if (defaultVault) return defaultVault;
throw this.error`, so it throws unless the supplied default is truthy.
A call with no argument passes `undefined`. Thrown errors are modelled by
`Except.error`. -/
def unwrap : JSResult → JSVal → Except JSError JSVal
  | .success v, _ => .ok v
  | .failure e, defaultVault =>
      if defaultVault.truthy then .ok defaultVault else .error e

/-- `Success.map` / `Failure.map`. The callback may itself throw (modelled by
`Except.error`), and `map` does not catch: a thrown error propagates. For a
Success the callback's result is returned directly when it is a Result
instance, else wrapped in a Success; a Failure returns a Failure with the
same error without calling the callback. -/
def map (f : JSVal → Except JSError JSVal) : JSResult → Except JSError JSResult
  | .success v =>
      match f v with
      | .error ex => .error ex
      | .ok fv =>
          match fv.toResult? with
          | some r => .ok r
          | none => .ok (.success fv)
  | .failure e => .ok (.failure e)

/-- `Success.mapAsync` / `Failure.mapAsync`. The asynchronous computation
supplied by the caller either resolves with a value or rejects with an error
(`Except`). `mapAsync` awaits it inside `try/catch`, so a rejection is
converted to a Failure and the returned promise always resolves: the result
type is `JSResult`, not `Except`. A Failure resolves immediately without
calling the callback. -/
def mapAsync (f : JSVal → Except JSError JSVal) : JSResult → JSResult
  | .success v =>
      match f v with
      | .error err => .failure err
      | .ok fv =>
          match fv.toResult? with
          | some r => r
          | none => .success fv
  | .failure e => .failure e

/-- `(x as Success).value`: reading `.value` on a Failure instance yields
`undefined` (the property is absent); `Result.filter` only applies it to
Success entries. -/
def value : JSResult → JSVal
  | .success v => v
  | .failure _ => .undefined

/-- Variant predicate `x instanceof Success`. -/
def isSuccess : JSResult → Bool
  | .success _ => true
  | .failure _ => false

/-- `Result.filter`: keep the Success entries and project their values. -/
def filter (a : List JSResult) : List JSVal :=
  (a.filter isSuccess).map value

/-- Loop body of `Result.all`: `res` accumulates the values pushed so far. -/
def allGo : List JSResult → List JSVal → JSResult
  | [], res => .success (.arr res)
  | .failure e :: _, _ => .failure e
  | .success v :: rest, res => allGo rest (res ++ [v])

/-- `Result.all`: scan the list in order; return the first Failure
encountered, else a Success wrapping the collected values. -/
def all (a : List JSResult) : JSResult :=
  allGo a []

/-- `Result.combine`, the deprecated historical alias: delegates to `all`. -/
def combine (a : List JSResult) : JSResult :=
  all a

end JSResult

/-! ### Error Codec (src/coding.ts)

The Error Type Registry is process-wide mutable state in the source
(`registeredErrorTypes`); the embedding passes the registry explicitly. A
registered reconstructor maps `(message, additionalProps)` to an error. -/

/-- A registered error reconstructor (`ErrorTypeDecoder`). -/
def ErrTypeDecoder := String → List (String × JSVal) → JSError

/-- The registry: name-to-reconstructor mapping, `Object.hasOwn` lookup. -/
def Registry := List (String × ErrTypeDecoder)

/-- Registry lookup: `Object.hasOwn(registeredErrorTypes, name)` followed by
`registeredErrorTypes[name]`. -/
def Registry.lookup : Registry → String → Option ErrTypeDecoder
  | [], _ => none
  | (k', d) :: rest, k => if k' = k then some d else Registry.lookup rest k

/-- Helper for registration on an association list: overwrite or append. -/
def Registry.set : Registry → String → ErrTypeDecoder → Registry
  | [], k, v => [(k, v)]
  | (k', v') :: rest, k, v =>
      if k' = k then (k', v) :: rest else (k', v') :: Registry.set rest k v

/-- `registerErrorDecoder(name, decoder)`: installs or overwrites the
registry entry for `name` (`registeredErrorTypes[name] = decoder`). -/
def registerErrorDecoder (reg : Registry) (name : String) (d : ErrTypeDecoder) :
    Registry :=
  Registry.set reg name d

/-- `defaultErrorEncoder(err)`: the reduce starts from an object holding
`name: err.name, message: err.message` and then copies every own property of
the error except `stack`, in own-property order, on top of it. -/
def defaultErrorEncoder (err : JSError) : List (String × JSVal) :=
  (err.props.filter (fun kv => kv.1 ≠ "stack")).foldl
    (fun res kv => setProp res kv.1 kv.2)
    [("name", err.getName), ("message", err.getMessage)]

/-- `defaultErrorDecoder(name, message, additionalProps)`: if `name` has a
registered reconstructor, return its result verbatim (early return — no
property attachment, no stack reset). Otherwise construct the matching
built-in kind, or a generic `Error` with its `name` property defined to the
given name; then define every key of `additionalProps` on it, and finally
define `stack` to the empty string. -/
def defaultErrorDecoder (reg : Registry) (name message : String)
    (additionalProps : List (String × JSVal)) : JSError :=
  match reg.lookup name with
  | some d => d message additionalProps
  | none =>
      let err :=
        match name with
        | "EvalError" => mkErr .evalError message
        | "RangeError" => mkErr .rangeError message
        | "ReferenceError" => mkErr .referenceError message
        | "SyntaxError" => mkErr .syntaxError message
        | "URIError" => mkErr .uriError message
        | _ => (mkErr .error message).defineProp "name" (.str name)
      let err := additionalProps.foldl (fun e kv => e.defineProp kv.1 kv.2) err
      err.defineProp "stack" (.str "")

/-! ### JSON Bridge (src/coding.ts / src/models.ts) -/

/-- `omitKeys(obj, keys)`: new object without the listed keys. -/
def omitKeys (obj : List (String × JSVal)) (keys : List String) :
    List (String × JSVal) :=
  obj.filter (fun kv => ¬ keys.contains kv.1)

/-- `errorModel` applied to a candidate `error` field: a loose object that
must carry string-valued `name` and `message` keys; on success it is
transformed through `Result.errorDecoder` (default decoder) with the
remaining keys as extra properties. `none` models validation failure. -/
def errorModelParse (reg : Registry) : JSVal → Option JSError
  | .obj props =>
      match getOwn props "name", getOwn props "message" with
      | some (.str n), some (.str m) =>
          some (defaultErrorDecoder reg n m (omitKeys props ["name", "message"]))
      | _, _ => none
  | _ => none

/-- Check of the `status` discriminant against a string literal. -/
def statusIs (props : List (String × JSVal)) (s : String) : Bool :=
  match getOwn props "status" with
  | some (.str t) => t = s
  | _ => false

/-- The strict success branch of `jsonModel`: key set exactly
`status`/`value` with `status` equal to the literal `"success"`. -/
def isSuccessEnvelope (props : List (String × JSVal)) : Bool :=
  props.all (fun kv => kv.1 = "status" || kv.1 = "value") &&
  statusIs props "success" &&
  (getOwn props "value").isSome

/-- The strict failure branch of `jsonModel` minus the nested error check:
key set exactly `status`/`error` with `status` equal to the literal
`"failure"`. -/
def isFailureEnvelope (props : List (String × JSVal)) : Bool :=
  props.all (fun kv => kv.1 = "status" || kv.1 = "error") &&
  statusIs props "failure" &&
  (getOwn props "error").isSome

/-- `jsonModel.safeParse` on a runtime value: the discriminated union of the
two strict envelope shapes, with the failure branch additionally requiring
the `error` field to satisfy `errorModelParse`. `none` models a failed
validation (any non-envelope value). -/
def jsonModelParse (reg : Registry) : JSVal → Option JSResult
  | .obj props =>
      if isSuccessEnvelope props then
        some (.success ((getOwn props "value").getD .undefined))
      else if isFailureEnvelope props then
        (errorModelParse reg ((getOwn props "error").getD .undefined)).map
          (fun e => .failure e)
      else
        none
  | _ => none

/-- `resultJSONReviver`: run `jsonModel.safeParse` on the node; on a success
match return `Result.success(value)`, on a failure match return
`Result.failure(decodedError)`, otherwise return the node unchanged. -/
def resultJSONReviver (reg : Registry) (value : JSVal) : JSVal :=
  match jsonModelParse reg value with
  | some r => r.toVal
  | none => value

mutual

/-- `JSON.parse(text, Result.JSONReviver)` after tokenizing: the reviver is
invoked bottom-up, children before parents, on every node of the parsed
tree. The text-level tokenizer is an external primitive (spec §1); this
function models the revival pass over the already-tokenized tree. -/
def reviveTree (reg : Registry) : JSVal → JSVal
  | .obj props => resultJSONReviver reg (.obj (reviveProps reg props))
  | .arr xs => resultJSONReviver reg (.arr (reviveList reg xs))
  | v => resultJSONReviver reg v

/-- Bottom-up revival of the members of an object node. -/
def reviveProps (reg : Registry) :
    List (String × JSVal) → List (String × JSVal)
  | [] => []
  | (k, v) :: rest => (k, reviveTree reg v) :: reviveProps reg rest

/-- Bottom-up revival of the elements of an array node. -/
def reviveList (reg : Registry) : List JSVal → List JSVal
  | [] => []
  | v :: rest => reviveTree reg v :: reviveList reg rest

end

/-- A caller-supplied validator (`model.safeParse`): either the validated /
transformed value or the validation error. The schema-validation library is
an external collaborator with exactly this contract (spec §1). -/
def Validator := JSVal → Except JSError JSVal

/-- Tail of `fromJson` after the Result-unwrap step: without a model the
value is wrapped in a Success verbatim, otherwise the model's outcome is
wrapped accordingly. -/
def applyModel (res : JSVal) : Option Validator → JSResult
  | none => .success res
  | some m =>
      match m res with
      | .ok d => .success d
      | .error e => .failure e

/-- `fromJson(str, model?)`. `parsed` is the outcome of
`JSON.parse(str, Result.JSONReviver)` — the tokenizer is an external
primitive, so the embedding takes the parse outcome (a thrown syntax fault
or the revived top-level value) as input. The function is total: it never
throws. -/
def fromJson (parsed : Except JSError JSVal) (model : Option Validator) :
    JSResult :=
  match parsed with
  | .error e => .failure e
  | .ok r =>
      match r.toResult? with
      | some (.failure e) => .failure e
      | some (.success x) => applyModel x model
      | none => applyModel r model

/-! ### Concrete values used by examples, witnesses and counterexamples -/

/-- `new Error("boom")`. -/
def errBoom : JSError := mkErr .error "boom"

/-- A registered reconstructor that ignores its arguments and returns an
error with a non-empty stack and no extra properties. -/
def keepStackDecoder : ErrTypeDecoder := fun _ _ => ⟨.error, [("stack", .str "kept")]⟩

/-- A registry with one custom entry. -/
def regCustom : Registry := [("CustomX", keepStackDecoder)]

/-- The inner plain value of the nested revival example. -/
def personVal : JSVal := .obj [("name", .str "John Smith")]

/-- The inner success envelope of the nested revival example. -/
def personEnvelope : JSVal := .obj [("status", .str "success"), ("value", personVal)]

/-- The parsed tree of
`"msg": "Hello World!", "person": (success envelope)` before revival. -/
def nestedDoc : JSVal := .obj [("msg", .str "Hello World!"), ("person", personEnvelope)]

/-- An error with an extra own property, for the codec round trip. -/
def errWithCode : JSError :=
  ⟨.error, [("message", .str "My Error"), ("stack", .str "<trace>"), ("code", .num 5)]⟩

/-! ### Helper lemmas on the property model -/

theorem getOwn_setProp_self (ps : List (String × JSVal)) (k : String) (v : JSVal) :
    getOwn (setProp ps k v) k = some v := by
  induction ps with
  | nil => simp [setProp, getOwn]
  | cons hd tl ih =>
      obtain ⟨k', v'⟩ := hd
      by_cases h : k' = k
      · subst h
        simp [setProp, getOwn]
      · simp [setProp, getOwn, h, ih]

theorem getOwn_setProp_of_ne (ps : List (String × JSVal)) (k k' : String) (v : JSVal)
    (h : k' ≠ k) : getOwn (setProp ps k v) k' = getOwn ps k' := by
  have hkk : ¬ (k = k') := fun hh => h hh.symm
  induction ps with
  | nil =>
      simp [setProp, getOwn, hkk]
  | cons hd tl ih =>
      obtain ⟨k'', v''⟩ := hd
      by_cases h2 : k'' = k
      · have hne : ¬ (k'' = k') := fun hh => hkk (h2 ▸ hh)
        simp [setProp, getOwn, h2, hne, hkk]
      · simp [setProp, getOwn, h2, ih]

/-- Folding property definitions whose keys all differ from `k` leaves the
value at `k` unchanged. -/
theorem getOwn_foldl_setProp_of_ne (l : List (String × JSVal))
    (ps : List (String × JSVal)) (k : String)
    (h : ∀ kv ∈ l, kv.1 ≠ k) :
    getOwn (l.foldl (fun res kv => setProp res kv.1 kv.2) ps) k = getOwn ps k := by
  induction l generalizing ps with
  | nil => simp
  | cons hd tl ih =>
      have hhd : hd.1 ≠ k := h hd (by simp)
      have htl : ∀ kv ∈ tl, kv.1 ≠ k := fun kv hm => h kv (by simp [hm])
      calc getOwn ((hd :: tl).foldl (fun res kv => setProp res kv.1 kv.2) ps) k
          = getOwn (tl.foldl (fun res kv => setProp res kv.1 kv.2) (setProp ps hd.1 hd.2)) k := by
            simp
        _ = getOwn (setProp ps hd.1 hd.2) k := ih (setProp ps hd.1 hd.2) htl
        _ = getOwn ps k := by
            rw [getOwn_setProp_of_ne]
            exact fun hh => hhd hh.symm

/-- Folding property definitions with pairwise distinct keys installs each
pair: the final value at `k` is the value paired with `k` in the list. -/
theorem getOwn_foldl_setProp_of_mem (l : List (String × JSVal))
    (ps : List (String × JSVal)) (k : String) (v : JSVal)
    (hnd : (l.map Prod.fst).Nodup) (hm : (k, v) ∈ l) :
    getOwn (l.foldl (fun res kv => setProp res kv.1 kv.2) ps) k = some v := by
  induction l generalizing ps with
  | nil => cases hm
  | cons hd tl ih =>
      rw [List.map_cons, List.nodup_cons] at hnd
      rcases List.mem_cons.mp hm with heq | hmtl
      · subst heq
        have htl : ∀ kv ∈ tl, kv.1 ≠ k := by
          intro kv hkv hkk
          exact hnd.1 (List.mem_map.mpr ⟨kv, hkv, hkk⟩)
        calc getOwn (((k, v) :: tl).foldl (fun res kv => setProp res kv.1 kv.2) ps) k
            = getOwn (tl.foldl (fun res kv => setProp res kv.1 kv.2) (setProp ps k v)) k := by
              simp
          _ = getOwn (setProp ps k v) k := getOwn_foldl_setProp_of_ne tl _ k htl
          _ = some v := getOwn_setProp_self ps k v
      · calc getOwn ((hd :: tl).foldl (fun res kv => setProp res kv.1 kv.2) ps) k
            = getOwn (tl.foldl (fun res kv => setProp res kv.1 kv.2) (setProp ps hd.1 hd.2)) k := by
              simp
          _ = some v := ih _ hnd.2 hmtl

theorem getOwn_mem {ps : List (String × JSVal)} {k : String} {v : JSVal}
    (h : getOwn ps k = some v) : (k, v) ∈ ps := by
  induction ps with
  | nil => cases h
  | cons hd tl ih =>
      obtain ⟨k', v'⟩ := hd
      by_cases h2 : k' = k
      · subst h2
        simp [getOwn] at h
        simp [h]
      · simp [getOwn, h2] at h
        exact List.mem_cons_of_mem _ (ih h)

theorem getOwn_eq_none {ps : List (String × JSVal)} {k : String}
    (h : getOwn ps k = none) : ∀ kv ∈ ps, kv.1 ≠ k := by
  induction ps with
  | nil => intro kv hm; cases hm
  | cons hd tl ih =>
      obtain ⟨k', v'⟩ := hd
      by_cases h2 : k' = k
      · subst h2
        simp [getOwn] at h
      · simp [getOwn, h2] at h
        intro kv hm
        rcases List.mem_cons.mp hm with heq | hmtl
        · subst heq; exact h2
        · exact ih h kv hmtl

/-- The registry entry written by `Registry.set` is found by lookup. -/
theorem Registry.lookup_set_self (reg : Registry) (k : String) (d : ErrTypeDecoder) :
    Registry.lookup (Registry.set reg k d) k = some d := by
  induction reg with
  | nil => simp [Registry.set, Registry.lookup]
  | cons hd tl ih =>
      obtain ⟨k', d'⟩ := hd
      by_cases h : k' = k
      · subst h
        simp [Registry.set, Registry.lookup]
      · simp [Registry.set, Registry.lookup, h, ih]

/-- A fold of `JSError.defineProp` acts on the property list and leaves the
class tag unchanged. -/
theorem foldl_defineProp_eq (l : List (String × JSVal)) (e : JSError) :
    l.foldl (fun acc kv => acc.defineProp kv.1 kv.2) e
      = ⟨e.cls, l.foldl (fun res kv => setProp res kv.1 kv.2) e.props⟩ := by
  induction l generalizing e with
  | nil => simp
  | cons hd tl ih =>
      calc (hd :: tl).foldl (fun acc kv => acc.defineProp kv.1 kv.2) e
          = tl.foldl (fun acc kv => acc.defineProp kv.1 kv.2) (e.defineProp hd.1 hd.2) := by
            simp
        _ = _ := by rw [ih]; rfl

/-- Keys listed in `omitKeys` are absent from its output. -/
theorem omitKeys_key_not_removed {obj : List (String × JSVal)} {keys : List String}
    {kv : String × JSVal} (h : kv ∈ omitKeys obj keys) : ¬ keys.contains kv.1 := by
  have := List.mem_filter.mp h
  simpa using this.2

/-! ### Codec-level lemmas -/

/-- The encoded object's `name` entry is the error's `name`. -/
theorem getOwn_encoder_name (e : JSError) (hnd : (e.props.map Prod.fst).Nodup) :
    getOwn (defaultErrorEncoder e) "name" = some e.getName := by
  unfold defaultErrorEncoder
  rcases hg : getOwn e.props "name" with _ | p
  · have hno : ∀ kv ∈ e.props.filter (fun kv => kv.1 ≠ "stack"), kv.1 ≠ "name" := by
      intro kv hm
      exact getOwn_eq_none hg kv (List.mem_of_mem_filter hm)
    rw [getOwn_foldl_setProp_of_ne _ _ _ hno]
    simp [getOwn]
  · have hmem : ("name", p) ∈ e.props.filter (fun kv => kv.1 ≠ "stack") :=
      List.mem_filter.mpr ⟨getOwn_mem hg, by simp⟩
    have hsub : List.Sublist ((e.props.filter (fun kv => kv.1 ≠ "stack")).map Prod.fst)
        (e.props.map Prod.fst) := (List.filter_sublist _).map Prod.fst
    have hnd2 := List.Nodup.sublist hsub hnd
    rw [getOwn_foldl_setProp_of_mem _ _ _ _ hnd2 hmem]
    simp [JSError.getName, hg]

/-- The encoded object's `message` entry is the error's `message`. -/
theorem getOwn_encoder_message (e : JSError) (hnd : (e.props.map Prod.fst).Nodup) :
    getOwn (defaultErrorEncoder e) "message" = some e.getMessage := by
  unfold defaultErrorEncoder
  rcases hg : getOwn e.props "message" with _ | p
  · have hno : ∀ kv ∈ e.props.filter (fun kv => kv.1 ≠ "stack"), kv.1 ≠ "message" := by
      intro kv hm
      exact getOwn_eq_none hg kv (List.mem_of_mem_filter hm)
    rw [getOwn_foldl_setProp_of_ne _ _ _ hno]
    simp [getOwn]
  · have hmem : ("message", p) ∈ e.props.filter (fun kv => kv.1 ≠ "stack") :=
      List.mem_filter.mpr ⟨getOwn_mem hg, by simp⟩
    have hsub : List.Sublist ((e.props.filter (fun kv => kv.1 ≠ "stack")).map Prod.fst)
        (e.props.map Prod.fst) := (List.filter_sublist _).map Prod.fst
    have hnd2 := List.Nodup.sublist hsub hnd
    rw [getOwn_foldl_setProp_of_mem _ _ _ _ hnd2 hmem]
    simp [JSError.getMessage, hg]

/-- Attaching extra properties and then clearing the stack leaves every other
key that does not occur among the extra properties unchanged. -/
theorem getOwn_attach_clear (err0 : JSError) (extra : List (String × JSVal))
    (k : String) (hk : k ≠ "stack") (hno : ∀ kv ∈ extra, kv.1 ≠ k) :
    getOwn (((extra.foldl (fun acc kv => acc.defineProp kv.1 kv.2) err0).defineProp
      "stack" (.str "")).props) k = getOwn err0.props k := by
  rw [foldl_defineProp_eq]
  show getOwn (setProp _ "stack" (.str "")) k = _
  rw [getOwn_setProp_of_ne _ _ _ _ hk]
  exact getOwn_foldl_setProp_of_ne _ _ _ hno

/-- Attaching extra properties with pairwise distinct keys installs each of
them (apart from a `stack` entry, which the final reset overrides). -/
theorem getOwn_attach_mem (err0 : JSError) (extra : List (String × JSVal))
    (k : String) (v : JSVal) (hnd : (extra.map Prod.fst).Nodup)
    (hm : (k, v) ∈ extra) (hk : k ≠ "stack") :
    getOwn (((extra.foldl (fun acc kv => acc.defineProp kv.1 kv.2) err0).defineProp
      "stack" (.str "")).props) k = some v := by
  rw [foldl_defineProp_eq]
  show getOwn (setProp _ "stack" (.str "")) k = _
  rw [getOwn_setProp_of_ne _ _ _ _ hk]
  exact getOwn_foldl_setProp_of_mem _ _ _ _ hnd hm

/-- After the final reset the stack own property is the empty string. -/
theorem getOwn_attach_stack (err0 : JSError) (extra : List (String × JSVal)) :
    getOwn (((extra.foldl (fun acc kv => acc.defineProp kv.1 kv.2) err0).defineProp
      "stack" (.str "")).props) "stack" = some (.str "") := by
  rw [foldl_defineProp_eq]
  exact getOwn_setProp_self _ _ _

/-- Attaching properties and clearing the stack does not change the class. -/
theorem attach_clear_cls (err0 : JSError) (extra : List (String × JSVal)) :
    ((extra.foldl (fun acc kv => acc.defineProp kv.1 kv.2) err0).defineProp
      "stack" (.str "")).cls = err0.cls := by
  rw [foldl_defineProp_eq]
  rfl

/-- A true status check pins down the `status` own property. -/
theorem statusIs_eq {props : List (String × JSVal)} {s : String}
    (h : statusIs props s = true) : getOwn props "status" = some (.str s) := by
  unfold statusIs at h
  rcases hg : getOwn props "status" with _ | v <;> rw [hg] at h
  · simp at h
  · cases v <;> simp_all

/-- The two envelope branches are mutually exclusive. -/
theorem isSuccessEnvelope_of_failure {props : List (String × JSVal)}
    (h : isFailureEnvelope props = true) : isSuccessEnvelope props = false := by
  have hs : statusIs props "failure" = true := by
    simp [isFailureEnvelope, Bool.and_eq_true] at h
    exact h.1.2
  have hg := statusIs_eq hs
  simp [isSuccessEnvelope, statusIs, hg]

/-- The decoder applied to an unregistered name preserves the given name and
message: the built-in branches inherit the prototype name matching the
switch label, the generic branch defines `name` explicitly, and the
subsequent property attachment never touches `name` or `message`. -/
theorem decode_unregistered_name_message (n m : String)
    (extra : List (String × JSVal))
    (hno : ∀ kv ∈ extra, kv.1 ≠ "name" ∧ kv.1 ≠ "message") :
    (defaultErrorDecoder [] n m extra).getName = .str n ∧
    (defaultErrorDecoder [] n m extra).getMessage = .str m := by
  have hname : ∀ err0 : JSError,
      getOwn (((extra.foldl (fun acc kv => acc.defineProp kv.1 kv.2) err0).defineProp
        "stack" (.str "")).props) "name" = getOwn err0.props "name" :=
    fun err0 => getOwn_attach_clear err0 extra "name" (by decide)
      (fun kv hm2 => (hno kv hm2).1)
  have hmsg : ∀ err0 : JSError,
      getOwn (((extra.foldl (fun acc kv => acc.defineProp kv.1 kv.2) err0).defineProp
        "stack" (.str "")).props) "message" = getOwn err0.props "message" :=
    fun err0 => getOwn_attach_clear err0 extra "message" (by decide)
      (fun kv hm2 => (hno kv hm2).2)
  unfold defaultErrorDecoder
  simp only [Registry.lookup]
  split <;> refine ⟨?_, ?_⟩ <;>
    simp only [JSError.getName, JSError.getMessage] <;>
      first
        | (rw [hname, attach_clear_cls]
           simp [mkErr, JSError.defineProp, setProp, getOwn, JSErrClass.protoName])
        | (rw [hmsg]
           simp [mkErr, JSError.defineProp, setProp, getOwn])

/-- Loop invariant of `Result.all` over a prefix of successes. -/
theorem allGo_successes (vs : List JSVal) :
    ∀ acc, JSResult.allGo (vs.map JSResult.success) acc = .success (.arr (acc ++ vs)) := by
  induction vs with
  | nil => intro acc; simp [JSResult.allGo]
  | cons v tl ih =>
      intro acc
      simp [JSResult.allGo, ih]

/-- `Result.all` stops at the first Failure regardless of what follows. -/
theorem allGo_failure (vs : List JSVal) (e : JSError) (rest : List JSResult) :
    ∀ acc, JSResult.allGo (vs.map JSResult.success ++ JSResult.failure e :: rest) acc
      = .failure e := by
  induction vs with
  | nil => intro acc; simp [JSResult.allGo]
  | cons v tl ih =>
      intro acc
      simp [JSResult.allGo, ih]

/-- The identity callback, always resolving with its argument. -/
def idOk : JSVal → Except JSError JSVal := fun x => .ok x

/-- A callback resolving with a Failure Result instance (flattening case). -/
def toFailureFn : JSVal → Except JSError JSVal :=
  fun _ => .ok (JSResult.failure errBoom).toVal

/-- A callback that throws (rejects with) `errBoom`. -/
def throwFn : JSVal → Except JSError JSVal := fun _ => .error errBoom

/-! ### Claims -/

/-- Claim C1. The claim states that `f.unwrap(d)` on a Failure returns any
explicitly supplied default `d`, including falsy-but-defined ones such as
`0`, `""` or `false`. The code runs `if (defaultVault) return defaultVault;
throw this.error`, so every falsy default falls through to the throw: the
claim fails on the code at `unwrap(0)`, `unwrap("")` and `unwrap(false)`,
while the truthy-default and no-default clauses hold. This theorem records
the code's behaviour at those inputs. -/
theorem unwrap_failure_falsy_default_throws :
    JSResult.unwrap (.failure errBoom) (.num 0) = .error errBoom ∧
    JSResult.unwrap (.failure errBoom) (.str "") = .error errBoom ∧
    JSResult.unwrap (.failure errBoom) (.bool false) = .error errBoom ∧
    JSResult.unwrap (.failure errBoom) .undefined = .error errBoom ∧
    JSResult.unwrap (.failure errBoom) (.num 10) = .ok (.num 10) :=
  ⟨rfl, rfl, rfl, rfl, rfl⟩

/-- Claim C2, counterexample. With a reconstructor registered for
`"CustomX"` that returns an error with no extra properties and a non-empty
stack, `defaultErrorDecoder` returns that error verbatim: the decoded error
does not carry the `extraProps` key `"k"` and its stack is not the empty
string, contradicting the claim's "in all three cases" for the
registered-reconstructor case. -/
theorem decode_registered_counterexample :
    getOwn (defaultErrorDecoder regCustom "CustomX" "m" [("k", .num 1)]).props "k"
      = none ∧
    getOwn (defaultErrorDecoder regCustom "CustomX" "m" [("k", .num 1)]).props "stack"
      = some (.str "kept") ∧
    ¬ (getOwn (defaultErrorDecoder regCustom "CustomX" "m" [("k", .num 1)]).props "k"
        = some (.num 1) ∧
      getOwn (defaultErrorDecoder regCustom "CustomX" "m" [("k", .num 1)]).props "stack"
        = some (.str "")) :=
  ⟨rfl, rfl, fun h => Option.noConfusion h.1⟩

/-- Claim C2, amended. For a name with no registered decoder, the error
built by the default error decoder (built-in kind or generic fallback)
carries every key of `extraProps` as an own property with its value (apart
from a `stack` key, which the final reset overrides) and has its stack
property forced to the empty string; for a registered name, the
reconstructor's result is returned verbatim, with no property attachment
and no stack reset. -/
theorem decode_unregistered_attaches_props_and_clears_stack
    (reg : Registry) (name message : String) (props : List (String × JSVal)) :
    (reg.lookup name = none → (props.map Prod.fst).Nodup →
      (∀ k v, (k, v) ∈ props → k ≠ "stack" →
        getOwn (defaultErrorDecoder reg name message props).props k = some v) ∧
      getOwn (defaultErrorDecoder reg name message props).props "stack"
        = some (.str "")) ∧
    (∀ d, reg.lookup name = some d →
      defaultErrorDecoder reg name message props = d message props) := by
  constructor
  · intro hl hnd
    constructor
    · intro k v hm hk
      unfold defaultErrorDecoder
      rw [hl]
      exact getOwn_attach_mem _ _ _ _ hnd hm hk
    · unfold defaultErrorDecoder
      rw [hl]
      exact getOwn_attach_stack _ _
  · intro d hd
    simp [defaultErrorDecoder, hd]

/-- Claim C2, witness: concrete instance of the amended theorem on the
unregistered name `"RangeError"`. -/
theorem decode_unregistered_attaches_props_and_clears_stack_witness :
    getOwn (defaultErrorDecoder [] "RangeError" "m" [("k", .num 1)]).props "k"
      = some (.num 1) ∧
    getOwn (defaultErrorDecoder [] "RangeError" "m" [("k", .num 1)]).props "stack"
      = some (.str "") := by
  have h := (decode_unregistered_attaches_props_and_clears_stack
    [] "RangeError" "m" [("k", .num 1)]).1 rfl (by simp)
  exact ⟨h.1 "k" (.num 1) (by simp) (by decide), h.2⟩

/-- Claim C3. `fromJson` never throws (it is a total function of the parse
outcome): a parse fault becomes a Failure wrapping that fault; a top-level
Failure Result is returned immediately; a top-level Success Result is
unwrapped and its inner value processed against the optional validator; a
non-Result top-level value is processed directly, and with no validator the
(possibly unwrapped) value is wrapped in a Success verbatim. -/
theorem fromJson_dispatch :
    (∀ e model, fromJson (.error e) model = .failure e) ∧
    (∀ e model, fromJson (.ok (JSResult.failure e).toVal) model = .failure e) ∧
    (∀ x model, fromJson (.ok (JSResult.success x).toVal) model = applyModel x model) ∧
    (∀ x, fromJson (.ok (JSResult.success x).toVal) none = .success x) ∧
    (∀ x, x.toResult? = none → fromJson (.ok x) none = .success x) := by
  refine ⟨fun e model => rfl, fun e model => rfl, fun x model => rfl,
    fun x => rfl, fun x hx => ?_⟩
  simp [fromJson, hx, applyModel]

/-- Claim C3, witness: a parse fault, a top-level Failure, a top-level
Success, and a plain top-level value, each at a concrete input. -/
theorem fromJson_dispatch_witness :
    fromJson (.error errBoom) none = .failure errBoom ∧
    fromJson (.ok (JSResult.failure errBoom).toVal) none = .failure errBoom ∧
    fromJson (.ok (JSResult.success (.num 3)).toVal) none = .success (.num 3) ∧
    fromJson (.ok (.num 3)) none = .success (.num 3) :=
  ⟨fromJson_dispatch.1 errBoom none,
   fromJson_dispatch.2.1 errBoom none,
   fromJson_dispatch.2.2.2.1 (.num 3),
   fromJson_dispatch.2.2.2.2 (.num 3) rfl⟩

/-- Claim C4. The revival callback: a node matching the closed success
envelope shape becomes a Success wrapping its `value` field; a node
matching the closed failure envelope shape (with a decodable `error` field)
becomes a Failure wrapping the decoded error; any node the envelope model
rejects is returned unchanged, including objects with a missing key, an
extra key or a wrong status discriminant; and reviving the nested document
yields a plain object whose `person` field is a Success instance while the
outer object stays a plain object. -/
theorem reviver_envelope_cases :
    (∀ reg props, isSuccessEnvelope props = true →
      resultJSONReviver reg (.obj props)
        = (JSResult.success ((getOwn props "value").getD .undefined)).toVal) ∧
    (∀ reg props e, isFailureEnvelope props = true →
      errorModelParse reg ((getOwn props "error").getD .undefined) = some e →
      resultJSONReviver reg (.obj props) = (JSResult.failure e).toVal) ∧
    (∀ reg v, jsonModelParse reg v = none → resultJSONReviver reg v = v) ∧
    resultJSONReviver [] (.obj [("status", .str "success")])
      = .obj [("status", .str "success")] ∧
    resultJSONReviver [] (.obj [("status", .str "success"), ("value", .num 1),
        ("x", .num 2)])
      = .obj [("status", .str "success"), ("value", .num 1), ("x", .num 2)] ∧
    resultJSONReviver [] (.obj [("status", .str "ok"), ("value", .num 1)])
      = .obj [("status", .str "ok"), ("value", .num 1)] ∧
    reviveTree [] nestedDoc
      = .obj [("msg", .str "Hello World!"),
        ("person", (JSResult.success personVal).toVal)] := by
  refine ⟨?_, ?_, ?_, rfl, rfl, rfl, rfl⟩
  · intro reg props h
    simp [resultJSONReviver, jsonModelParse, h]
  · intro reg props e h herr
    simp [resultJSONReviver, jsonModelParse, isSuccessEnvelope_of_failure h, h, herr]
  · intro reg v h
    simp [resultJSONReviver, h]

/-- Claim C4, witness: the success envelope of the nested example, a
concrete failure envelope, and a concrete pass-through, each through the
theorem. -/
theorem reviver_envelope_cases_witness :
    resultJSONReviver [] personEnvelope = (JSResult.success personVal).toVal ∧
    resultJSONReviver [] (.obj [("status", .str "failure"),
        ("error", .obj [("name", .str "MyError"), ("message", .str "Oh, no!")])])
      = (JSResult.failure (defaultErrorDecoder [] "MyError" "Oh, no!" [])).toVal ∧
    resultJSONReviver [] (.str "Hello World!") = .str "Hello World!" := by
  refine ⟨?_, ?_, ?_⟩
  · exact reviver_envelope_cases.1 [] [("status", .str "success"), ("value", personVal)] rfl
  · exact reviver_envelope_cases.2.1 []
      [("status", .str "failure"),
        ("error", .obj [("name", .str "MyError"), ("message", .str "Oh, no!")])]
      (defaultErrorDecoder [] "MyError" "Oh, no!" []) rfl rfl
  · exact reviver_envelope_cases.2.2.1 [] (.str "Hello World!") rfl

/-- Claim C5. A registered decoder is authoritative: whenever `name` is
present in the registry, `defaultErrorDecoder` invokes the registered
reconstructor with `(message, extraProps)` and returns its result verbatim;
in particular after `registerErrorDecoder(name, d)` — including for a
built-in name — decoding `name` invokes `d`. -/
theorem decode_registry_priority (reg : Registry) (name message : String)
    (props : List (String × JSVal)) :
    (∀ d, reg.lookup name = some d →
      defaultErrorDecoder reg name message props = d message props) ∧
    (∀ d, defaultErrorDecoder (registerErrorDecoder reg name d) name message props
      = d message props) := by
  constructor
  · intro d hd
    simp [defaultErrorDecoder, hd]
  · intro d
    simp [defaultErrorDecoder, registerErrorDecoder, Registry.lookup_set_self]

/-- Claim C5, witness: a registered custom name, and a freshly registered
built-in name overriding the built-in handling. -/
theorem decode_registry_priority_witness :
    defaultErrorDecoder regCustom "CustomX" "m" [] = keepStackDecoder "m" [] ∧
    defaultErrorDecoder (registerErrorDecoder [] "RangeError" keepStackDecoder)
      "RangeError" "mm" [] = keepStackDecoder "mm" [] :=
  ⟨(decode_registry_priority regCustom "CustomX" "m" []).1 keepStackDecoder rfl,
   (decode_registry_priority [] "RangeError" "mm" []).2 keepStackDecoder⟩

/-- Claim C6. `all` (and its historical alias `combine`) scans in order: a
list of successes yields a Success wrapping the values in input order, and
a first Failure is returned as is, independently of everything after it
(short-circuit), including at the claim's two concrete examples. -/
theorem all_short_circuit :
    (∀ vs : List JSVal, JSResult.all (vs.map JSResult.success) = .success (.arr vs)) ∧
    (∀ (vs : List JSVal) (e : JSError) (rest : List JSResult),
      JSResult.all (vs.map JSResult.success ++ JSResult.failure e :: rest)
        = .failure e) ∧
    (∀ a, JSResult.combine a = JSResult.all a) ∧
    JSResult.all [JSResult.success (.num 1), JSResult.success (.num 2),
        JSResult.success (.num 3)]
      = .success (.arr [.num 1, .num 2, .num 3]) ∧
    JSResult.all [JSResult.success (.num 1), JSResult.failure errBoom,
        JSResult.success (.num 2)]
      = .failure errBoom := by
  refine ⟨?_, ?_, fun a => rfl, rfl, rfl⟩
  · intro vs
    simpa using allGo_successes vs []
  · intro vs e rest
    exact allGo_failure vs e rest []

/-- Claim C7. `map` on a Success applies the callback and flattens one
level: a Result-valued callback result is returned directly, a plain result
is wrapped in a Success, and an error thrown by the callback propagates
uncaught; `map` on a Failure returns a Failure with the same error, for
every callback. -/
theorem map_flattening :
    (∀ (f : JSVal → Except JSError JSVal) (v fv : JSVal), f v = .ok fv →
      fv.toResult? = none → JSResult.map f (.success v) = .ok (.success fv)) ∧
    (∀ (f : JSVal → Except JSError JSVal) (v fv : JSVal) (r : JSResult),
      f v = .ok fv → fv.toResult? = some r →
      JSResult.map f (.success v) = .ok r) ∧
    (∀ (f : JSVal → Except JSError JSVal) (v : JSVal) (ex : JSError),
      f v = .error ex → JSResult.map f (.success v) = .error ex) ∧
    (∀ (f : JSVal → Except JSError JSVal) (e : JSError),
      JSResult.map f (.failure e) = .ok (.failure e)) := by
  refine ⟨?_, ?_, ?_, fun f e => rfl⟩ <;> intros <;> simp [JSResult.map, *]

/-- Claim C7, witness: a plain-valued callback, a Result-valued callback
(flattening), and a throwing callback, each at a concrete Success. -/
theorem map_flattening_witness :
    JSResult.map idOk (.success (.num 2)) = .ok (.success (.num 2)) ∧
    JSResult.map toFailureFn (.success (.num 2)) = .ok (.failure errBoom) ∧
    JSResult.map throwFn (.success (.num 2)) = .error errBoom :=
  ⟨map_flattening.1 idOk (.num 2) (.num 2) rfl rfl,
   map_flattening.2.1 toFailureFn (.num 2) _ (.failure errBoom) rfl rfl,
   map_flattening.2.2.1 throwFn (.num 2) errBoom rfl⟩

/-- Claim C8. `mapAsync` on a Success follows the same one-level flattening
rule as `map`, and a rejection or throw of the asynchronous computation is
caught and converted to a Failure wrapping the error — the function itself
always resolves (it is total into `JSResult`); on a Failure it resolves to
a Failure with the same error without invoking the callback. -/
theorem mapAsync_flattening :
    (∀ (f : JSVal → Except JSError JSVal) (v fv : JSVal), f v = .ok fv →
      fv.toResult? = none → JSResult.mapAsync f (.success v) = .success fv) ∧
    (∀ (f : JSVal → Except JSError JSVal) (v fv : JSVal) (r : JSResult),
      f v = .ok fv → fv.toResult? = some r →
      JSResult.mapAsync f (.success v) = r) ∧
    (∀ (f : JSVal → Except JSError JSVal) (v : JSVal) (err : JSError),
      f v = .error err → JSResult.mapAsync f (.success v) = .failure err) ∧
    (∀ (f : JSVal → Except JSError JSVal) (e : JSError),
      JSResult.mapAsync f (.failure e) = .failure e) := by
  refine ⟨?_, ?_, ?_, fun f e => rfl⟩ <;> intros <;> simp [JSResult.mapAsync, *]

/-- Claim C8, witness: a resolving callback, a Result-valued callback
(flattening), and a rejecting callback, each at a concrete Success. -/
theorem mapAsync_flattening_witness :
    JSResult.mapAsync idOk (.success (.num 2)) = .success (.num 2) ∧
    JSResult.mapAsync toFailureFn (.success (.num 2)) = .failure errBoom ∧
    JSResult.mapAsync throwFn (.success (.num 2)) = .failure errBoom :=
  ⟨mapAsync_flattening.1 idOk (.num 2) (.num 2) rfl rfl,
   mapAsync_flattening.2.1 toFailureFn (.num 2) _ (.failure errBoom) rfl rfl,
   mapAsync_flattening.2.2.1 throwFn (.num 2) errBoom rfl⟩

/-- Claim C9. Codec round trip with the registry in its initial (empty)
state: for every error object with pairwise distinct own-property keys and
string-valued name and message, decoding the encoded name, message, and
remaining encoded properties yields an error whose name and message equal
the original's (the trace is not compared). -/
theorem codec_roundtrip_preserves_name_message (e : JSError) (n m : String)
    (hnd : (e.props.map Prod.fst).Nodup)
    (hn : getOwn (defaultErrorEncoder e) "name" = some (.str n))
    (hm : getOwn (defaultErrorEncoder e) "message" = some (.str m)) :
    (defaultErrorDecoder [] n m
      (omitKeys (defaultErrorEncoder e) ["name", "message"])).getName
      = e.getName ∧
    (defaultErrorDecoder [] n m
      (omitKeys (defaultErrorEncoder e) ["name", "message"])).getMessage
      = e.getMessage := by
  have hen : e.getName = .str n := by
    have h := getOwn_encoder_name e hnd
    rw [hn] at h
    exact (Option.some.inj h).symm
  have hem : e.getMessage = .str m := by
    have h := getOwn_encoder_message e hnd
    rw [hm] at h
    exact (Option.some.inj h).symm
  rw [hen, hem]
  exact decode_unregistered_name_message n m _
    (fun kv hkv => by
      have h2 := omitKeys_key_not_removed hkv
      simp at h2
      exact ⟨h2.1, h2.2⟩)

/-- Claim C9, witness: the round trip at a concrete generic error carrying
an extra `code` property. -/
theorem codec_roundtrip_preserves_name_message_witness :
    (defaultErrorDecoder [] "Error" "My Error"
      (omitKeys (defaultErrorEncoder errWithCode) ["name", "message"])).getName
      = errWithCode.getName ∧
    (defaultErrorDecoder [] "Error" "My Error"
      (omitKeys (defaultErrorEncoder errWithCode) ["name", "message"])).getMessage
      = errWithCode.getMessage :=
  codec_roundtrip_preserves_name_message errWithCode "Error" "My Error"
    (by simp [errWithCode]) rfl rfl

/-- Claim C10. The aggregation operations have the empty input as an
identity: `all([])` is a Success wrapping the empty list, and `filter([])`
is the empty list. -/
theorem empty_list_identities :
    JSResult.all [] = .success (.arr []) ∧ JSResult.filter [] = [] :=
  ⟨rfl, rfl⟩

end ResultLib
